import Mathlib

/-!
Verification of the influx-proxy write-path core against its specification.

The Go sources are shallowly embedded:
* `FileBackend` models the framed append-only spill log of
  `src/backend/config.go` (file contents as byte lists, the meta file as the
  decoded committed offset, `dataflag` as the cached `has_data` bit).
* `Rewrite` / `RewriteLoopStep` model the rewrite logic of the backend engine
  (`src/unnamed/part_000`), with the HTTP delivery outcome as an input.
* `Backend` models the single-writer batching worker state
  (`WriteBuffer` / `FlushBuffer`), recording payloads handed to the task pool.
* `EngineChan` models the running flag and ingress channel for `Close`.
* `Circle` models the consistent-hash router with its per-key cache; the ring
  itself (third-party `stathat.com/c/consistent`) is an abstract immutable
  function.
-/

namespace InfluxProxy

/-- Byte strings are lists of naturals (each byte below 256 in the program). -/
abbrev Bytes := List Nat

/-- Big-endian encoding of `uint32(n)`, as written by `binary.Write` with
`binary.BigEndian` in `FileBackend.Write` (`uint32(len(p))` truncates). -/
def be32 (n : Nat) : Bytes :=
  [n % 2 ^ 32 / 2 ^ 24, n % 2 ^ 32 / 2 ^ 16 % 256, n % 2 ^ 32 / 2 ^ 8 % 256,
    n % 2 ^ 32 % 256]

/-- Big-endian decoding of a 4-byte length prefix, as read by `binary.Read`
in `FileBackend.Read`. -/
def beDecode4 : Bytes → Nat
  | [a, b, c, d] => ((a * 256 + b) * 256 + c) * 256 + d
  | _ => 0

/-- State of the spill log (`FileBackend` in `src/backend/config.go`):
`dat` is the contents of the `.dat` file (the producer handle is in append
mode, so its offset always equals `dat.length`), `consumerPos` the consumer
handle's file position, `meta` the decoded contents of the `.rec` file
(`none` models the empty file), and `dataflag` the cached `has_data` bit. -/
structure FileBackend where
  dat : Bytes
  consumerPos : Nat
  meta : Option Nat
  dataflag : Bool
deriving DecidableEq, Repr

/-- One on-disk record: 4-byte big-endian length prefix, then the payload. -/
def frame (p : Bytes) : Bytes := be32 p.length ++ p

/-- `FileBackend.Write`: appends the length prefix and the payload to the
producer (append mode), syncs, and sets the `has_data` flag. -/
def FileBackend.Write (fb : FileBackend) (p : Bytes) : FileBackend :=
  { fb with dat := fb.dat ++ frame p, dataflag := true }

/-- `FileBackend.IsData`: returns the cached flag. -/
def FileBackend.IsData (fb : FileBackend) : Bool := fb.dataflag

/-- Result of `FileBackend.Read`: `(nil, err)` on a failed length/body read,
`(nil, nil)` when `IsData` is false, or `(p, nil)` with the record bytes. -/
inductive ReadOut where
  | err : ReadOut
  | empty : ReadOut
  | record (p : Bytes) : ReadOut
deriving DecidableEq, Repr

/-- `FileBackend.Read`: if the flag is clear returns `(nil, nil)`; otherwise
reads a 4-byte big-endian length then exactly that many bytes from the
consumer handle, advancing the in-memory position without committing.  A
short read (`binary.Read` / `io.ReadFull` hitting EOF) consumes the rest of
the file and returns an error. -/
def FileBackend.Read (fb : FileBackend) : ReadOut × FileBackend :=
  if fb.dataflag = false then (.empty, fb)
  else if fb.consumerPos + 4 ≤ fb.dat.length then
    if fb.consumerPos + 4 + beDecode4 ((fb.dat.drop fb.consumerPos).take 4) ≤
        fb.dat.length then
      (.record ((fb.dat.drop (fb.consumerPos + 4)).take
          (beDecode4 ((fb.dat.drop fb.consumerPos).take 4))),
        { fb with consumerPos :=
            fb.consumerPos + 4 + beDecode4 ((fb.dat.drop fb.consumerPos).take 4) })
    else (.err, { fb with consumerPos := fb.dat.length })
  else (.err, { fb with consumerPos := max fb.consumerPos fb.dat.length })

/-- `FileBackend.RollbackMeta`: seeks the meta file to 0 and reads an
`int64`; on an empty meta file `binary.Read` returns `io.EOF` and the
function returns that error WITHOUT reseeking the consumer.  Otherwise the
consumer is seeked to the stored offset.  The returned `Bool` is whether a
non-nil error was returned. -/
def FileBackend.RollbackMeta (fb : FileBackend) : Bool × FileBackend :=
  match fb.meta with
  | none => (true, fb)
  | some off => (false, { fb with consumerPos := off })

/-- `FileBackend.UpdateMeta`: reads the producer offset (end of `dat`) and
the consumer offset; when equal calls `CleanUp` and commits offset 0, else
commits the current consumer offset. -/
def FileBackend.UpdateMeta (fb : FileBackend) : FileBackend :=
  if fb.dat.length = fb.consumerPos then
    { fb with dat := [], consumerPos := 0, meta := some 0, dataflag := false }
  else { fb with meta := some fb.consumerPos }

/-- `FileBackend.CleanUp`: consumer to start, truncate the data file,
reopen the producer (append mode, so its offset is again `dat.length = 0`),
clear the flag.  The meta file itself is only rewritten by `UpdateMeta`. -/
def FileBackend.CleanUp (fb : FileBackend) : FileBackend :=
  { fb with dat := [], consumerPos := 0, dataflag := false }

/-- `NewFileBackend`: open the three handles, `RollbackMeta` (a fresh empty
meta file leaves the consumer at 0), then set
`dataflag = (producer_end > consumer_pos)`. -/
def NewFileBackend (dat : Bytes) (meta : Option Nat) : FileBackend :=
  let fb0 : FileBackend :=
    { dat := dat, consumerPos := 0, meta := meta, dataflag := false }
  let fb1 := (fb0.RollbackMeta).2
  { fb1 with dataflag := decide (dat.length > fb1.consumerPos) }

/-- The spec's cached-flag invariant: `has_data == (producer > consumer)`. -/
def hasDataInv (fb : FileBackend) : Prop :=
  fb.dataflag = decide (fb.dat.length > fb.consumerPos)

instance (fb : FileBackend) : Decidable (hasDataInv fb) := by
  unfold hasDataInv; infer_instance

/-! ### Rewrite path (`src/unnamed/part_000`) -/

/-- Splits a byte string at its first space (0x20), if any. -/
def splitFirst : Bytes → Option (Bytes × Bytes)
  | [] => none
  | c :: cs =>
    if c = 32 then some ([], cs)
    else (splitFirst cs).map fun q => (c :: q.1, q.2)

/-- `bytes.SplitN(b, " ", 3)`: split on the first two spaces, the third part
keeping the remainder verbatim. -/
def splitN3 (b : Bytes) : List Bytes :=
  match splitFirst b with
  | none => [b]
  | some (x, rest) =>
    match splitFirst rest with
    | none => [x, rest]
    | some (y, rest2) => [x, y, rest2]

/-- Whether a byte is an ASCII hexadecimal digit. -/
def isHexDigit (c : Nat) : Bool :=
  (48 ≤ c && c ≤ 57) || (97 ≤ c && c ≤ 102) || (65 ≤ c && c ≤ 70)

/-- Numeric value of an ASCII hexadecimal digit. -/
def hexVal (c : Nat) : Nat :=
  if 48 ≤ c && c ≤ 57 then c - 48
  else if 97 ≤ c && c ≤ 102 then c - 87
  else if 65 ≤ c && c ≤ 70 then c - 55
  else 0

/-- `url.QueryUnescape` (Go standard library, used by `Backend.Rewrite`):
decodes `%XX` escapes, maps `+` to space, and fails on a malformed or
truncated escape. -/
def queryUnescape : Bytes → Option Bytes
  | [] => some []
  | 37 :: a :: b :: rest =>
    if isHexDigit a && isHexDigit b then
      (queryUnescape rest).map fun t => (hexVal a * 16 + hexVal b) :: t
    else none
  | 37 :: _ => none
  | 43 :: rest => (queryUnescape rest).map fun t => 32 :: t
  | c :: rest => (queryUnescape rest).map fun t => c :: t

/-- Modelled from the spec: the closed error taxonomy of
`HttpBackend.WriteCompressed` (spec §4.2/§7) — the `HttpBackend` source file
is not under `src/`, so the delivery outcome is an input to the rewrite
model rather than computed. -/
inductive WriteOutcome where
  | success : WriteOutcome
  | badRequest : WriteOutcome
  | notFound : WriteOutcome
  | transient : WriteOutcome
deriving DecidableEq, Repr

/-- `Backend.Rewrite` (`src/unnamed/part_000`): reads one spill record,
splits it on the first two spaces, percent-decodes db and rp, attempts the
compressed write, and commits (`UpdateMeta`) on success / BadRequest /
NotFound; on any other (transient) outcome it calls `RollbackMeta` and
returns `err = ib.fb.RollbackMeta()` — i.e. the rollback's OWN error, which
is nil whenever the meta file is non-empty.  The returned `Bool` is whether
the function returned a non-nil error. -/
def Rewrite (fb : FileBackend) (outcome : WriteOutcome) : FileBackend × Bool :=
  match fb.Read with
  | (.err, fb') => (fb', true)
  | (.empty, fb') => (fb', false)
  | (.record b, fb') =>
    match splitN3 b with
    | [d, q, _payload] =>
      match queryUnescape d with
      | none => (fb', true)
      | some _ =>
        match queryUnescape q with
        | none => (fb', true)
        | some _ =>
          match outcome with
          | .transient =>
            let r := fb'.RollbackMeta
            (r.2, r.1)
          | _ => (fb'.UpdateMeta, false)
    | _ => (fb', false)

/-- One iteration of `Backend.RewriteLoop`: exits when the spill log is
drained or the engine stops running; sleeps `rewrite_interval` seconds when
the backend is inactive or when `Rewrite` returned a non-nil error.  Result
is `none` when the loop exits, else the new state and whether it slept. -/
def RewriteLoopStep (fb : FileBackend) (running active : Bool)
    (outcome : WriteOutcome) : Option (FileBackend × Bool) :=
  if fb.IsData = false then none
  else if running = false then none
  else if active = false then some (fb, true)
  else
    let r := Rewrite fb outcome
    some (r.1, r.2)

/-! ### Spill round-trip (`writeAll` / `drain`) -/

/-- Encoded concatenation of a sequence of spill records. -/
def framesOf : List Bytes → Bytes
  | [] => []
  | p :: ps => frame p ++ framesOf ps

/-- Appends a sequence of payloads via `FileBackend.Write`. -/
def writeAll (fb : FileBackend) (ps : List Bytes) : FileBackend :=
  ps.foldl FileBackend.Write fb

/-- The spec's end-to-end consumption loop: while `is_data()`, `read()` a
record and `update_meta()` after each successful read, collecting the
records in order.  `fuel` bounds the iteration count. -/
def drain : Nat → FileBackend → List Bytes × FileBackend
  | 0, fb => ([], fb)
  | fuel + 1, fb =>
    if fb.IsData then
      match fb.Read with
      | (.record p, fb') =>
        let r := drain fuel fb'.UpdateMeta
        (p :: r.1, r.2)
      | (.empty, fb') => ([], fb')
      | (.err, fb') => ([], fb')
    else ([], fb)

/-! ### Batching worker state (`src/unnamed/part_000`) -/

/-- `CacheBuffer`: a growable byte buffer (the `none` case models the Go
`nil` `*bytes.Buffer` left behind by a flush) and a write counter. -/
structure CacheBuffer where
  buffer : Option Bytes
  counter : Nat
deriving DecidableEq, Repr

/-- The worker-owned state of one `Backend` engine: the two-level
`buffers` map flattened to a function on `(db, rp)` (`none` = entry
absent), the one-shot deferred-flush timer arming bit (`chTimer`), the
`flush_size` threshold, and the ordered log of detached payloads submitted
to the task pool (the task body then compresses and POSTs or spills). -/
structure Backend where
  buffers : String → String → Option CacheBuffer
  chTimer : Bool
  flushSize : Nat
  submitted : List (String × String × Bytes)

/-- Pointwise update of the flattened two-level buffers map. -/
def updBuf (f : String → String → Option CacheBuffer) (db rp : String)
    (cb : CacheBuffer) : String → String → Option CacheBuffer :=
  fun d r => if d = db && r = rp then some cb else f d r

/-- `Backend.FlushBuffer`: steals the bytes of `buffers[db][rp]`, resets the
entry to `(nil, 0)`, and submits the non-empty payload to the pool.  A
missing entry makes the Go code dereference a nil pointer (`none` result);
a nil buffer returns with the entry untouched. -/
def Backend.FlushBuffer (ib : Backend) (db rp : String) : Option Backend :=
  match ib.buffers db rp with
  | none => none
  | some cb =>
    match cb.buffer with
    | none => some ib
    | some p =>
      let ib1 : Backend := { ib with buffers := updBuf ib.buffers db rp ⟨none, 0⟩ }
      if p.isEmpty then some ib1
      else some { ib1 with submitted := ib1.submitted ++ [(db, rp, p)] }

/-- Content of a buffer after appending `line` in `Backend.WriteBuffer`: the
line, then a newline exactly when `line` does not already end in one. -/
def appendLine (content line : Bytes) : Bytes :=
  if line.getLast? = some 10 then content ++ line else content ++ line ++ [10]

/-- `Backend.WriteBuffer`: lazily creates the `(db, rp)` entry, increments
the counter, reconstructs a nil buffer, appends the line plus a normalizing
newline, then either size-flushes (`counter >= flush_size`) or arms the
one-shot timer if it is not armed.  `line[len(line)-1]` on an empty line
panics in Go (`none` result). -/
def Backend.WriteBuffer (ib : Backend) (db rp : String) (line : Bytes) :
    Option Backend :=
  if line.isEmpty then none
  else
    let cb0 := (ib.buffers db rp).getD ⟨some [], 0⟩
    let cb1 : CacheBuffer :=
      ⟨some (appendLine (cb0.buffer.getD []) line), cb0.counter + 1⟩
    let ib1 : Backend := { ib with buffers := updBuf ib.buffers db rp cb1 }
    if cb1.counter ≥ ib.flushSize then ib1.FlushBuffer db rp
    else if ib1.chTimer = false then some { ib1 with chTimer := true }
    else some ib1

/-! ### Engine lifecycle (`Backend.Close` / `Backend.WritePoint`) -/

/-- The atomically stored `running` flag and the state of the ingress
channel `chWrite`. -/
structure EngineChan where
  running : Bool
  chClosed : Bool
deriving DecidableEq, Repr

/-- `Backend.Close`: stores `running = false`, then `close(ib.chWrite)` —
which panics (`none`) when the channel is already closed. -/
def EngineChan.Close (s : EngineChan) : Option EngineChan :=
  if s.chClosed then none
  else some { running := false, chClosed := true }

/-- Result of `Backend.WritePoint`. -/
inductive SubmitResult where
  | ok : SubmitResult
  | closedErr : SubmitResult
  | panicked : SubmitResult
deriving DecidableEq, Repr

/-- `Backend.WritePoint`: returns `io.ErrClosedPipe` when not running, else
sends on the ingress channel (a send on a closed channel panics). -/
def EngineChan.WritePoint (s : EngineChan) : SubmitResult :=
  if s.running = false then .closedErr
  else if s.chClosed then .panicked
  else .ok

/-! ### Circle routing (`src/backend/circle.go`) -/

/-- The consistent-hash router of one circle.  `ring` abstracts
`router.Get` on the 256-virtual-node ring of the third-party
`stathat.com/c/consistent` library (immutable after `addRouter` has run for
every backend); `mapToBackend` maps the winning ring string to the backend
engine (identified by a number); `routerCache` is the per-key cache. -/
structure Circle where
  ring : String → String
  mapToBackend : String → Nat
  routerCache : List (String × Nat)

/-- Lookup in the per-key router cache (`sync.Map.Load`). -/
def cacheLookup : List (String × Nat) → String → Option Nat
  | [], _ => none
  | (k, v) :: rest, key => if key = k then some v else cacheLookup rest key

/-- `Circle.GetBackend`: consults the cache; on a miss queries the ring,
stores the result, and returns it. -/
def Circle.GetBackend (ic : Circle) (key : String) : Nat × Circle :=
  match cacheLookup ic.routerCache key with
  | some be => (be, ic)
  | none =>
    let be := ic.mapToBackend (ic.ring key)
    (be, { ic with routerCache := (key, be) :: ic.routerCache })

/-- Every cache entry equals what the immutable ring maps its key to. -/
def cacheConsistent (ic : Circle) : Prop :=
  ∀ kv ∈ ic.routerCache, kv.2 = ic.mapToBackend (ic.ring kv.1)

/-! ### Concrete states used by counterexamples and witnesses -/

/-- The last byte currently held in the `(db, rp)` batch buffer, if any. -/
def lastBufferByte (ib : Backend) (db rp : String) : Option Nat :=
  ((ib.buffers db rp).bind CacheBuffer.buffer).bind List.getLast?

/-- The `(db, rp)` cache buffer as `Backend.WriteBuffer` sees it: the
existing entry, or the freshly created empty one. -/
def bufferAt (ib : Backend) (db rp : String) : CacheBuffer :=
  (ib.buffers db rp).getD ⟨some [], 0⟩

/-- Spill log holding the single well-formed record `"a b c"`, with the
current read position committed in a non-empty meta file. -/
def fbC1 : FileBackend := ⟨frame [97, 32, 98, 32, 99], 0, some 0, true⟩

/-- State of `fbC1` right after its record has been read (not committed). -/
def fbC1R : FileBackend := ⟨frame [97, 32, 98, 32, 99], 9, some 0, true⟩

/-- Spill log holding the single malformed record `"a"` (no spaces), with
offset 0 committed. -/
def fbC2 : FileBackend := ⟨frame [97], 0, some 0, true⟩

/-- Fresh spill log (empty meta file) with one record `"a"` appended: the
state the spec calls out as committed-offset-0. -/
def fbC3 : FileBackend := (NewFileBackend [] none).Write [97]

/-- Well-formed one-record log used by witnesses. -/
def fbW : FileBackend := ⟨frame [97], 0, some 0, true⟩

/-- The scenario line `"a 1\n"` as bytes. -/
def lineA1 : Bytes := [97, 32, 49, 10]

/-- Engine with an existing `("d", "r")` buffer holding `"a 1\n"`. -/
def ibC6 : Backend :=
  ⟨updBuf (fun _ _ => none) "d" "r" ⟨some lineA1, 1⟩, true, 10000, []⟩

/-- Engine with `flush_size = 1`, so the very first point size-flushes. -/
def ibC7 : Backend := ⟨fun _ _ => none, false, 1, []⟩

/-- Engine with `flush_size = 3` and empty buffers (scenario 1 of §8). -/
def ibC8 : Backend := ⟨fun _ _ => none, false, 3, []⟩

/-- Three `LinePoint` submissions of `lineA1` into `("d", "r")`. -/
def c8run : Option Backend :=
  ((ibC8.WriteBuffer "d" "r" lineA1).bind fun b =>
    b.WriteBuffer "d" "r" lineA1).bind fun b => b.WriteBuffer "d" "r" lineA1

/-- A running engine whose ingress channel is open. -/
def engOpen : EngineChan := ⟨true, false⟩

/-- A circle with an empty per-key cache over an abstract one-backend ring. -/
def icW : Circle := ⟨fun _ => "0", fun _ => 0, []⟩

/-! ## Helper lemmas -/

theorem be32_length (n : Nat) : (be32 n).length = 4 := rfl

theorem beDecode4_be32 (n : Nat) (h : n < 2 ^ 32) : beDecode4 (be32 n) = n := by
  simp only [be32, beDecode4]
  omega

theorem frame_length (p : Bytes) : (frame p).length = 4 + p.length := by
  simp [frame, be32_length]

/-- Computing `Read` at the start of a well-framed record. -/
theorem Read_frame (pre p tail : Bytes) (m : Option Nat)
    (hp : p.length < 2 ^ 32) :
    FileBackend.Read ⟨pre ++ (frame p ++ tail), pre.length, m, true⟩ =
      (.record p,
        ⟨pre ++ (frame p ++ tail), pre.length + 4 + p.length, m, true⟩) := by
  have hdrop : (pre ++ (frame p ++ tail)).drop pre.length = frame p ++ tail :=
    List.drop_left pre (frame p ++ tail)
  have htake : (frame p ++ tail).take 4 = be32 p.length := by
    have h4 : (4 : Nat) = (be32 p.length).length := rfl
    rw [frame, List.append_assoc, h4, List.take_left]
  have hlen2 : (pre ++ (frame p ++ tail)).length =
      pre.length + 4 + p.length + tail.length := by
    simp [frame, be32]
    omega
  have hdrop2 : (pre ++ (frame p ++ tail)).drop (pre.length + 4) = p ++ tail := by
    have hform : pre ++ (frame p ++ tail) = (pre ++ be32 p.length) ++ (p ++ tail) := by
      simp [frame, List.append_assoc]
    have hl : pre.length + 4 = (pre ++ be32 p.length).length := by
      simp [be32]
    rw [hform, hl, List.drop_left]
  have htakep : (p ++ tail).take p.length = p := List.take_left p tail
  rw [FileBackend.Read]
  simp only [hdrop, htake, beDecode4_be32 p.length hp, hdrop2, htakep]
  rw [if_neg (by simp), if_pos (by omega), if_pos (by omega)]

/-- `Read` only moves the consumer position. -/
theorem Read_state (fb : FileBackend) :
    ∃ q, (fb.Read).2 = { fb with consumerPos := q } := by
  rw [FileBackend.Read]
  by_cases h1 : fb.dataflag = false
  · exact ⟨fb.consumerPos, by rw [if_pos h1]⟩
  · rw [if_neg h1]
    by_cases h2 : fb.consumerPos + 4 ≤ fb.dat.length
    · rw [if_pos h2]
      by_cases h3 : fb.consumerPos + 4 +
          beDecode4 ((fb.dat.drop fb.consumerPos).take 4) ≤ fb.dat.length
      · exact ⟨_, by rw [if_pos h3]⟩
      · exact ⟨fb.dat.length, by rw [if_neg h3]⟩
    · exact ⟨_, by rw [if_neg h2]⟩

/-- A successful record read implies the cached flag was set. -/
theorem Read_record_dataflag (fb fb' : FileBackend) (b : Bytes)
    (hread : fb.Read = (.record b, fb')) : fb.dataflag = true := by
  by_contra h
  have hfalse : fb.dataflag = false := by
    cases hfb : fb.dataflag
    · rfl
    · exact absurd hfb h
  rw [FileBackend.Read, if_pos hfalse] at hread
  exact ReadOut.noConfusion (congrArg Prod.fst hread)

/-- A successful record read leaves every field but the position intact. -/
theorem Read_record_fields (fb fb' : FileBackend) (b : Bytes)
    (hread : fb.Read = (.record b, fb')) :
    fb'.dat = fb.dat ∧ fb'.meta = fb.meta ∧ fb'.dataflag = fb.dataflag := by
  obtain ⟨q, hq⟩ := Read_state fb
  rw [hread] at hq
  have hfb : fb' = { fb with consumerPos := q } := hq
  rw [hfb]
  exact ⟨rfl, rfl, rfl⟩

theorem RollbackMeta_some (fb : FileBackend) (mm : Nat) (h : fb.meta = some mm) :
    fb.RollbackMeta = (false, { fb with consumerPos := mm }) := by
  rw [FileBackend.RollbackMeta, h]

theorem UpdateMeta_mid (fb : FileBackend) (h : fb.dat.length ≠ fb.consumerPos) :
    fb.UpdateMeta = { fb with meta := some fb.consumerPos } := by
  rw [FileBackend.UpdateMeta, if_neg h]

theorem UpdateMeta_drained (fb : FileBackend) (h : fb.dat.length = fb.consumerPos) :
    fb.UpdateMeta =
      { fb with dat := [], consumerPos := 0, meta := some 0, dataflag := false } := by
  rw [FileBackend.UpdateMeta, if_pos h]

theorem framesOf_cons (p : Bytes) (ps : List Bytes) :
    framesOf (p :: ps) = frame p ++ framesOf ps := rfl

theorem framesOf_pos (ps : List Bytes) (h : ps ≠ []) : 0 < (framesOf ps).length := by
  cases ps with
  | nil => exact absurd rfl h
  | cons p ps =>
    rw [framesOf_cons]
    simp [frame_length]

theorem updBuf_same (f : String → String → Option CacheBuffer) (db rp : String)
    (cb : CacheBuffer) : updBuf f db rp cb db rp = some cb := by
  simp [updBuf]

theorem appendLine_getLast (content line : Bytes) (hne : line ≠ []) :
    (appendLine content line).getLast? = some 10 := by
  rw [appendLine]
  by_cases h : line.getLast? = some 10
  · rw [if_pos h, List.getLast?_append_of_ne_nil content hne, h]
  · rw [if_neg h, List.append_assoc,
      List.getLast?_append_of_ne_nil content (by simp),
      List.getLast?_append_of_ne_nil line (by simp)]
    rfl

theorem appendLine_ne_nil (content line : Bytes) (hne : line ≠ []) :
    appendLine content line ≠ [] := by
  rw [appendLine]
  by_cases h : line.getLast? = some 10
  · rw [if_pos h]
    simp [hne]
  · rw [if_neg h]
    simp

/-- `FlushBuffer` on an entry holding a non-empty buffer: reset the entry
and submit the payload. -/
theorem FlushBuffer_nonempty (ib : Backend) (db rp : String) (p : Bytes)
    (n : Nat) (hentry : ib.buffers db rp = some ⟨some p, n⟩)
    (hp : p.isEmpty = false) :
    ib.FlushBuffer db rp = some ⟨updBuf ib.buffers db rp ⟨none, 0⟩,
      ib.chTimer, ib.flushSize, ib.submitted ++ [(db, rp, p)]⟩ := by
  rw [Backend.FlushBuffer, hentry]
  simp [hp]

theorem cacheLookup_mem (l : List (String × Nat)) (k : String) (v : Nat)
    (h : cacheLookup l k = some v) : (k, v) ∈ l := by
  induction l with
  | nil => exact Option.noConfusion h
  | cons kv rest ih =>
    obtain ⟨k0, v0⟩ := kv
    rw [cacheLookup] at h
    by_cases hk : k = k0
    · rw [if_pos hk] at h
      obtain rfl := Option.some.inj h
      rw [hk]
      exact List.mem_cons_self (k0, v0) rest
    · rw [if_neg hk] at h
      exact List.mem_cons_of_mem _ (ih h)

/-- `writeAll` appends the frames of all payloads and sets the flag when at
least one payload was written. -/
theorem writeAll_eq (ps : List Bytes) (d : Bytes) (pos : Nat) (m : Option Nat)
    (flag : Bool) :
    writeAll ⟨d, pos, m, flag⟩ ps =
      ⟨d ++ framesOf ps, pos, m, flag || !ps.isEmpty⟩ := by
  induction ps generalizing d flag with
  | nil => simp [writeAll, framesOf]
  | cons p ps ih =>
    have hstep : FileBackend.Write ⟨d, pos, m, flag⟩ p =
        ⟨d ++ frame p, pos, m, true⟩ := rfl
    have hfold : writeAll ⟨d, pos, m, flag⟩ (p :: ps) =
        writeAll ⟨d ++ frame p, pos, m, true⟩ ps := by
      rw [writeAll, List.foldl_cons, hstep]
      rfl
    rw [hfold, ih]
    simp [framesOf_cons, List.append_assoc]

/-- One `drain` iteration on a state whose next read yields a record. -/
theorem drain_succ_record (fuel : Nat) (fb fb' : FileBackend) (p : Bytes)
    (hflag : fb.IsData = true) (hread : fb.Read = (.record p, fb')) :
    drain (fuel + 1) fb =
      (p :: (drain fuel fb'.UpdateMeta).1, (drain fuel fb'.UpdateMeta).2) := by
  rw [drain, if_pos hflag, hread]

/-- Draining a log positioned at the start of `ps`'s frames, with `pre`
already-consumed bytes before it, yields exactly `ps` and the truncated
drained state. -/
theorem drain_go (ps : List Bytes) (pre : Bytes) (m : Option Nat)
    (hlen : ∀ p ∈ ps, p.length < 2 ^ 32) (hne : ps ≠ []) :
    drain ps.length ⟨pre ++ framesOf ps, pre.length, m, true⟩ =
      (ps, ⟨[], 0, some 0, false⟩) := by
  induction ps generalizing pre m with
  | nil => exact absurd rfl hne
  | cons p ps ih =>
    have hp : p.length < 2 ^ 32 := hlen p (by simp)
    have hread : (⟨pre ++ framesOf (p :: ps), pre.length, m, true⟩ :
        FileBackend).Read = (.record p,
          ⟨pre ++ (frame p ++ framesOf ps), pre.length + 4 + p.length, m,
            true⟩) := by
      rw [framesOf_cons]
      exact Read_frame pre p (framesOf ps) m hp
    rw [List.length_cons, drain_succ_record ps.length
      ⟨pre ++ framesOf (p :: ps), pre.length, m, true⟩ _ p rfl hread]
    by_cases hps : ps = []
    · subst hps
      have hend : ((⟨pre ++ (frame p ++ framesOf []), pre.length + 4 + p.length,
          m, true⟩ : FileBackend)).dat.length = pre.length + 4 + p.length := by
        simp [framesOf, frame, be32]
        omega
      rw [UpdateMeta_drained _ hend]
      rfl
    · have hmid : ((⟨pre ++ (frame p ++ framesOf ps), pre.length + 4 + p.length,
          m, true⟩ : FileBackend)).dat.length ≠ pre.length + 4 + p.length := by
        have hpos := framesOf_pos ps hps
        simp [frame, be32]
        omega
      have hup : (⟨pre ++ (frame p ++ framesOf ps), pre.length + 4 + p.length,
          m, true⟩ : FileBackend).UpdateMeta =
          ⟨(pre ++ frame p) ++ framesOf ps, (pre ++ frame p).length,
            some (pre.length + 4 + p.length), true⟩ := by
        rw [UpdateMeta_mid _ hmid]
        have h2 : (pre ++ frame p).length = pre.length + 4 + p.length := by
          simp only [List.length_append, frame_length]
          omega
        simp [List.append_assoc, h2]
      rw [hup, ih (pre ++ frame p) (some (pre.length + 4 + p.length))
        (fun q hq => hlen q (by simp [hq])) hps]

/-! ## Claim theorems -/

/-- C3 counterexample: in the fresh state (empty meta file, committed
offset 0) with one unread record, `read(); rollback_meta(); read()` does
NOT re-deliver the record — `rollback_meta` hits EOF on the empty meta
file, leaves the consumer where the first read put it, and the second read
fails instead of returning the same bytes. -/
theorem C3_counterexample :
    (fbC3.Read).1 = .record [97] ∧
      ((((fbC3.Read).2.RollbackMeta).2).Read).1 = .err := by decide

/-- C3 (amended): for a state with at least one unread, well-framed record
whose NON-EMPTY meta file records the current read position (the last
commit), `read(); rollback_meta(); read()` returns the same bytes twice. -/
theorem C3_rollback_read_idempotent (fb : FileBackend)
    (hflag : fb.dataflag = true)
    (hmeta : fb.meta = some fb.consumerPos)
    (h4 : fb.consumerPos + 4 ≤ fb.dat.length)
    (hrec : fb.consumerPos + 4 +
        beDecode4 ((fb.dat.drop fb.consumerPos).take 4) ≤ fb.dat.length) :
    ((((fb.Read).2.RollbackMeta).2).Read).1 = (fb.Read).1 ∧
      (fb.Read).1 = .record ((fb.dat.drop (fb.consumerPos + 4)).take
        (beDecode4 ((fb.dat.drop fb.consumerPos).take 4))) := by
  obtain ⟨q, hq⟩ := Read_state fb
  have hstate : (((fb.Read).2.RollbackMeta).2) = fb := by
    have h2 : ((fb.Read).2).meta = some fb.consumerPos := by
      rw [hq]
      exact hmeta
    rw [RollbackMeta_some _ _ h2, hq]
  have hfirst : (fb.Read).1 = .record ((fb.dat.drop (fb.consumerPos + 4)).take
      (beDecode4 ((fb.dat.drop fb.consumerPos).take 4))) := by
    rw [FileBackend.Read, if_neg (by simp [hflag]), if_pos h4, if_pos hrec]
  exact ⟨by rw [hstate], hfirst⟩

/-- C3 witness: the amended law at a concrete one-record committed state. -/
theorem C3_witness :
    ((((fbW.Read).2.RollbackMeta).2).Read).1 = (fbW.Read).1 ∧
      (fbW.Read).1 = .record ((fbW.dat.drop (fbW.consumerPos + 4)).take
        (beDecode4 ((fbW.dat.drop fbW.consumerPos).take 4))) :=
  C3_rollback_read_idempotent fbW (by decide) (by decide) (by decide) (by decide)

/-- C4: writing payloads `p1..pn` (each shorter than 2^32, the u32 length
prefix) to a drained spill log and then reading end-to-end with
`update_meta` after each successful read yields exactly `p1..pn` in
order. -/
theorem C4_framing_roundtrip (ps : List Bytes) (m : Option Nat)
    (hlen : ∀ p ∈ ps, p.length < 2 ^ 32) :
    (drain ps.length (writeAll ⟨[], 0, m, false⟩ ps)).1 = ps := by
  cases ps with
  | nil => rfl
  | cons p ps' =>
    have hgo := drain_go (p :: ps') [] m hlen (by simp)
    simp only [List.nil_append, List.length_nil] at hgo
    rw [writeAll_eq]
    simp only [List.nil_append, List.isEmpty_cons, Bool.not_false, Bool.or_true]
    rw [hgo]

/-- C4 witness: the round-trip at two concrete payloads. -/
theorem C4_witness :
    (drain 2 (writeAll ⟨[], 0, none, false⟩ [[97], [98, 99]])).1 =
      [[97], [98, 99]] :=
  C4_framing_roundtrip [[97], [98, 99]] none (by decide)

/-- C5 counterexample: `Read` does not maintain the cached-flag invariant.
After writing one record to a drained log and reading it (without
committing), `has_data` is still true while the producer and consumer
offsets are equal. -/
theorem C5_counterexample :
    ¬ hasDataInv ((FileBackend.Write ⟨[], 0, some 0, false⟩ [97]).Read).2 := by
  decide

/-- C5 (amended): `has_data == (producer_offset > consumer_offset)` is
established by `open` and by `cleanup`, preserved by `write` (in states
where the consumer has not run past the producer) and by `update_meta`, and
preserved by `rollback_meta` when the committed offset also satisfies it;
`read` does NOT preserve it (see the counterexample) until the following
`update_meta` restores it. -/
theorem C5_hasData_invariant :
    (∀ (dat : Bytes) (meta : Option Nat), hasDataInv (NewFileBackend dat meta)) ∧
      (∀ (fb : FileBackend) (p : Bytes), fb.consumerPos ≤ fb.dat.length →
        hasDataInv (fb.Write p)) ∧
      (∀ (fb : FileBackend), hasDataInv fb → hasDataInv fb.UpdateMeta) ∧
      (∀ (fb : FileBackend), hasDataInv fb.CleanUp) ∧
      (∀ (fb : FileBackend), hasDataInv fb →
        (∀ mm, fb.meta = some mm → decide (fb.dat.length > mm) = fb.dataflag) →
        hasDataInv (fb.RollbackMeta).2) := by
  refine ⟨?_, ?_, ?_, ?_, ?_⟩
  · intro dat meta
    cases meta with
    | none => rfl
    | some off => rfl
  · intro fb p hle
    show true = decide ((fb.dat ++ frame p).length > fb.consumerPos)
    rw [eq_comm, decide_eq_true_eq, List.length_append, frame_length]
    omega
  · intro fb hinv
    by_cases h : fb.dat.length = fb.consumerPos
    · rw [UpdateMeta_drained fb h]
      rfl
    · rw [UpdateMeta_mid fb h]
      exact hinv
  · intro fb
    rfl
  · intro fb hinv hm
    cases hmeta : fb.meta with
    | none =>
      rw [FileBackend.RollbackMeta, hmeta]
      exact hinv
    | some mm =>
      rw [FileBackend.RollbackMeta, hmeta]
      exact (hm mm hmeta).symm

/-- C5 witness: the write-preservation conjunct at a concrete state. -/
theorem C5_witness : hasDataInv (FileBackend.Write fbW [98]) :=
  C5_hasData_invariant.2.1 fbW [98] (by decide)

/-- C1 counterexample: on a spilled record whose redelivery fails with a
Transient outcome and whose meta file is non-empty, `Rewrite` returns a NIL
error (the `err = ib.fb.RollbackMeta()` assignment overwrites the HTTP
error with the successful rollback's nil), so `RewriteLoop` does NOT sleep
before retrying — contradicting the claim that a non-nil error is returned
and the loop sleeps `rewrite_interval` seconds. -/
theorem C1_counterexample :
    (Rewrite fbC1 .transient).2 = false ∧
      (RewriteLoopStep fbC1 true true .transient).map Prod.snd = some false := by
  decide

/-- C1 (amended): on a Transient redelivery failure, `Rewrite` calls
`rollback_meta`; when the meta file is non-empty the rollback succeeds,
restores the read position to the committed offset, leaves the meta offset
unchanged, and `Rewrite` returns a NIL error, so the outer `RewriteLoop`
retries immediately without sleeping (a non-nil error, and hence the
`rewrite_interval` sleep, happens only when the rollback itself fails,
e.g. on an empty meta file — and then the position is not restored). -/
theorem C1_transient_rollback_returns_nil (fb fb' : FileBackend)
    (b d q pay : Bytes) (m : Nat)
    (hmeta : fb.meta = some m)
    (hread : fb.Read = (.record b, fb'))
    (hsplit : splitN3 b = [d, q, pay])
    (hd : (queryUnescape d).isSome = true)
    (hq : (queryUnescape q).isSome = true) :
    Rewrite fb .transient = ({ fb' with consumerPos := m }, false) ∧
      ({ fb' with consumerPos := m } : FileBackend).meta = some m ∧
      RewriteLoopStep fb true true .transient =
        some ({ fb' with consumerPos := m }, false) := by
  obtain ⟨vd, hvd⟩ := Option.isSome_iff_exists.mp hd
  obtain ⟨vq, hvq⟩ := Option.isSome_iff_exists.mp hq
  have hmeta' : fb'.meta = some m := by
    rw [(Read_record_fields fb fb' b hread).2.1, hmeta]
  have hro : Rewrite fb .transient = ({ fb' with consumerPos := m }, false) := by
    simp only [Rewrite, hread, hsplit, hvd, hvq, RollbackMeta_some fb' m hmeta']
  have hflag : fb.IsData = true := Read_record_dataflag fb fb' b hread
  refine ⟨hro, hmeta', ?_⟩
  rw [RewriteLoopStep, if_neg (by simp [hflag]), if_neg (by simp),
    if_neg (by simp), hro]

/-- C1 witness: the amended behaviour on the concrete record `"a b c"` with
committed offset 0. -/
theorem C1_witness :
    Rewrite fbC1 .transient = ({ fbC1R with consumerPos := 0 }, false) ∧
      ({ fbC1R with consumerPos := 0 } : FileBackend).meta = some 0 ∧
      RewriteLoopStep fbC1 true true .transient =
        some ({ fbC1R with consumerPos := 0 }, false) :=
  C1_transient_rollback_returns_nil fbC1 fbC1R [97, 32, 98, 32, 99]
    [97] [98] [99] 0 (by decide) (by decide) (by decide) (by decide) (by decide)

/-- C2 counterexample: on the malformed record `"a"` (fewer than three
space-separated parts), `Rewrite` skips it in memory (the consumer position
moves past it) but `update_meta` is NOT called: the committed offset stays
0 instead of advancing to 5 as the claim states. -/
theorem C2_counterexample :
    Rewrite fbC2 .success = ({ fbC2 with consumerPos := 5 }, false) ∧
      (Rewrite fbC2 .success).1.meta = some 0 ∧
      (Rewrite fbC2 .success).1.consumerPos = 5 := by decide

/-- C2 (amended): when the record read by `Rewrite` splits into fewer than
three parts, the function logs and skips it — the in-memory read position
stays past the malformed record and a nil error is returned (so the loop
proceeds immediately) — but `update_meta` is NOT called: the committed
consumer offset is left unchanged. -/
theorem C2_malformed_skips_without_commit (fb fb' : FileBackend) (b : Bytes)
    (outcome : WriteOutcome)
    (hread : fb.Read = (.record b, fb'))
    (hsplit : (splitN3 b).length < 3) :
    Rewrite fb outcome = (fb', false) ∧ fb'.meta = fb.meta := by
  refine ⟨?_, (Read_record_fields fb fb' b hread).2.1⟩
  rcases hsp : splitN3 b with _ | ⟨x, _ | ⟨y, _ | ⟨z, rest⟩⟩⟩
  · simp only [Rewrite, hread, hsp]
  · simp only [Rewrite, hread, hsp]
  · simp only [Rewrite, hread, hsp]
  · rw [hsp] at hsplit
    simp at hsplit
    omega

/-- C2 witness: the amended behaviour at the concrete malformed record. -/
theorem C2_witness :
    Rewrite fbC2 .success = (⟨frame [97], 5, some 0, true⟩, false) ∧
      (⟨frame [97], 5, some 0, true⟩ : FileBackend).meta = fbC2.meta :=
  C2_malformed_skips_without_commit fbC2 ⟨frame [97], 5, some 0, true⟩ [97]
    .success (by decide) (by decide)

/-- C6: for an existing `(db, rp)` entry (satisfying the documented
`CacheBuffer` invariant that an absent byte buffer has count 0), after
`FlushBuffer(db, rp)` the entry is `(nil, 0)` — count 0 and empty storage —
and exactly the pre-flush bytes are submitted to the task pool (nothing is
submitted when the buffer was empty). -/
theorem C6_flush_atomicity (ib : Backend) (db rp : String) (cb : CacheBuffer)
    (hentry : ib.buffers db rp = some cb)
    (hinv : cb.buffer = none → cb.counter = 0) :
    ((ib.FlushBuffer db rp).bind fun b => b.buffers db rp) = some ⟨none, 0⟩ ∧
      ((ib.FlushBuffer db rp).map Backend.submitted) =
        some (if (cb.buffer.getD []).isEmpty then ib.submitted
          else ib.submitted ++ [(db, rp, cb.buffer.getD [])]) := by
  obtain ⟨cbuf, ccnt⟩ := cb
  cases hb : cbuf with
  | none =>
    have hc : ccnt = 0 := hinv (by rw [hb])
    subst hc
    subst hb
    have hfl : ib.FlushBuffer db rp = some ib := by
      rw [Backend.FlushBuffer, hentry]
    rw [hfl]
    exact ⟨by simp [hentry], by simp⟩
  | some p =>
    subst hb
    by_cases hp : p.isEmpty
    · have hfl : ib.FlushBuffer db rp =
          some { ib with buffers := updBuf ib.buffers db rp ⟨none, 0⟩ } := by
        rw [Backend.FlushBuffer, hentry]
        simp [hp]
      rw [hfl]
      exact ⟨by simp [updBuf_same], by simp [hp]⟩
    · have hfl : ib.FlushBuffer db rp =
          some ⟨updBuf ib.buffers db rp ⟨none, 0⟩, ib.chTimer, ib.flushSize,
            ib.submitted ++ [(db, rp, p)]⟩ := by
        rw [Backend.FlushBuffer, hentry]
        simp [hp]
      rw [hfl]
      exact ⟨by simp [updBuf_same], by simp [hp]⟩

/-- C6 witness: flushing a concrete `("d", "r")` buffer holding one line. -/
theorem C6_witness :
    ((ibC6.FlushBuffer "d" "r").bind fun b => b.buffers "d" "r") =
      some ⟨none, 0⟩ ∧
      ((ibC6.FlushBuffer "d" "r").map Backend.submitted) =
        some (if ((some lineA1).getD ([] : Bytes)).isEmpty
          then ([] : List (String × String × Bytes))
          else [] ++ [("d", "r", (some lineA1).getD ([] : Bytes))]) :=
  C6_flush_atomicity ibC6 "d" "r" ⟨some lineA1, 1⟩
    (updBuf_same (fun _ _ => none) "d" "r" ⟨some lineA1, 1⟩)
    (fun h => Option.noConfusion h)

/-- C7 counterexample: when the `WriteBuffer` call reaches `flush_size`
(here 1), the buffer is flushed within the call, so after the call returns
the `(db, rp)` buffer is empty — its last byte is not a newline, there is
no byte at all. -/
theorem C7_counterexample :
    ((ibC7.WriteBuffer "d" "r" lineA1).map fun b => lastBufferByte b "d" "r") =
      some none ∧ (none : Option Nat) ≠ some 10 := by decide

/-- C7 (amended): for a non-empty `line`, the bytes `WriteBuffer` appends
always end in a newline — one is added exactly when `line` does not already
end in one.  When the call does not trigger the size-flush, the `(db, rp)`
buffer therefore ends in a newline after the call; when it does trigger it,
the newline-terminated content is what is detached and submitted, and the
buffer is left empty. -/
theorem C7_newline_normalization (ib : Backend) (db rp : String) (line : Bytes)
    (hne : line ≠ []) :
    (appendLine ((bufferAt ib db rp).buffer.getD []) line).getLast? = some 10 ∧
      ((bufferAt ib db rp).counter + 1 < ib.flushSize →
        ((ib.WriteBuffer db rp line).bind fun b => b.buffers db rp) =
          some ⟨some (appendLine ((bufferAt ib db rp).buffer.getD []) line),
            (bufferAt ib db rp).counter + 1⟩) ∧
      (ib.flushSize ≤ (bufferAt ib db rp).counter + 1 →
        ((ib.WriteBuffer db rp line).map Backend.submitted) =
          some (ib.submitted ++
            [(db, rp, appendLine ((bufferAt ib db rp).buffer.getD []) line)]) ∧
        ((ib.WriteBuffer db rp line).bind fun b => b.buffers db rp) =
          some ⟨none, 0⟩) := by
  have hemp : line.isEmpty = false := by
    cases line with
    | nil => exact absurd rfl hne
    | cons c cs => rfl
  have hcontent : appendLine ((bufferAt ib db rp).buffer.getD []) line ≠ [] :=
    appendLine_ne_nil _ line hne
  refine ⟨appendLine_getLast _ line hne, ?_, ?_⟩
  · intro hlt
    have hge : ¬ ((((ib.buffers db rp).getD ⟨some [], 0⟩).counter + 1) ≥
        ib.flushSize) := by
      simp only [bufferAt] at hlt
      omega
    rw [Backend.WriteBuffer, if_neg (by simp [hemp]), if_neg hge]
    by_cases ht : ib.chTimer = false
    · rw [if_pos ht]
      simp [updBuf_same, bufferAt]
    · rw [if_neg ht]
      simp [updBuf_same, bufferAt]
  · intro hge'
    have hge : (((ib.buffers db rp).getD ⟨some [], 0⟩).counter + 1) ≥
        ib.flushSize := by
      simp only [bufferAt] at hge'
      omega
    have hce : (appendLine (((ib.buffers db rp).getD ⟨some [], 0⟩).buffer.getD
        []) line).isEmpty = false := by
      have hnn := appendLine_ne_nil (((ib.buffers db rp).getD
        ⟨some [], 0⟩).buffer.getD []) line hne
      cases hl : appendLine (((ib.buffers db rp).getD
          ⟨some [], 0⟩).buffer.getD []) line with
      | nil => exact absurd hl hnn
      | cons c cs => rfl
    rw [Backend.WriteBuffer, if_neg (by simp [hemp]), if_pos hge,
      FlushBuffer_nonempty _ db rp _ _ (updBuf_same _ db rp _) hce]
    constructor
    · rfl
    · simp [updBuf_same]

/-- C7 witness: the non-flush conjunct at a concrete empty engine. -/
theorem C7_witness :
    ((ibC8.WriteBuffer "d" "r" lineA1).bind fun b => b.buffers "d" "r") =
      some ⟨some (appendLine [] lineA1), 1⟩ :=
  (C7_newline_normalization ibC8 "d" "r" lineA1 (by decide)).2.1 (by decide)

/-- C8 counterexample: after the three scenario points, the deferred-flush
timer armed by the first point is still armed (only `Flush`, run when the
timer fires, clears `chTimer`; `FlushBuffer` does not) — contradicting the
claim that no timer is left armed. -/
theorem C8_counterexample : (c8run.map Backend.chTimer) ≠ some false := by
  decide

/-- C8 (amended): with `flush_size = 3`, three points `(d, r, "a 1\n")`
produce exactly one task-pool submission whose payload is
`"a 1\na 1\na 1\n"` (compression happens inside the task, before the POST),
and leave the `(d, r)` buffer empty with count 0; the timer armed by the
first point remains armed and its later firing flushes nothing. -/
theorem C8_fill_triggers_size_flush :
    (c8run.map Backend.submitted) =
      some [("d", "r", lineA1 ++ lineA1 ++ lineA1)] ∧
      (c8run.bind fun b => b.buffers "d" "r") = some ⟨none, 0⟩ ∧
      (c8run.map Backend.chTimer) = some true := by decide

/-- C9 counterexample: a second `close()` does not complete without fault —
`close(ib.chWrite)` on the already-closed ingress channel panics. -/
theorem C9_counterexample :
    ((EngineChan.Close engOpen).bind EngineChan.Close) = none ∧
      ((EngineChan.Close engOpen).bind EngineChan.Close).isSome = false := by
  decide

/-- C9 (amended): a first `close()` stores `running = false` and closes the
ingress channel, after which `WritePoint` returns the Closed error; but
`close()` is NOT idempotent: a second call panics closing the
already-closed channel. -/
theorem C9_close_not_idempotent :
    EngineChan.Close engOpen = some ⟨false, true⟩ ∧
      EngineChan.WritePoint ⟨false, true⟩ = .closedErr ∧
      EngineChan.Close ⟨false, true⟩ = none := by decide

/-- C10: for a circle whose per-key cache is consistent with the immutable
ring (true initially, the cache starting empty), `GetBackend k` returns
exactly the backend the ring maps `k` to, preserves cache consistency,
leaves the ring and backend map untouched, and returns the same backend on
the repeated call. -/
theorem C10_select_stable (ic : Circle) (k : String) (h : cacheConsistent ic) :
    (ic.GetBackend k).1 = ic.mapToBackend (ic.ring k) ∧
      cacheConsistent (ic.GetBackend k).2 ∧
      (ic.GetBackend k).2.ring = ic.ring ∧
      (ic.GetBackend k).2.mapToBackend = ic.mapToBackend ∧
      ((ic.GetBackend k).2.GetBackend k).1 = (ic.GetBackend k).1 := by
  cases hc : cacheLookup ic.routerCache k with
  | some be =>
    have hg : ic.GetBackend k = (be, ic) := by
      rw [Circle.GetBackend, hc]
    have hbe : be = ic.mapToBackend (ic.ring k) :=
      h (k, be) (cacheLookup_mem ic.routerCache k be hc)
    rw [hg]
    exact ⟨hbe, h, rfl, rfl, by rw [hg]⟩
  | none =>
    have hg : ic.GetBackend k = (ic.mapToBackend (ic.ring k),
        { ic with routerCache :=
          (k, ic.mapToBackend (ic.ring k)) :: ic.routerCache }) := by
      rw [Circle.GetBackend, hc]
    rw [hg]
    refine ⟨rfl, ?_, rfl, rfl, ?_⟩
    · intro kv hkv
      rcases List.mem_cons.mp hkv with h1 | h2
      · rw [h1]
      · exact h kv h2
    · rw [Circle.GetBackend]
      simp [cacheLookup]

/-- C10 witness: selection on a concrete circle with an empty cache. -/
theorem C10_witness :
    (icW.GetBackend "k").1 = icW.mapToBackend (icW.ring "k") ∧
      cacheConsistent (icW.GetBackend "k").2 ∧
      (icW.GetBackend "k").2.ring = icW.ring ∧
      (icW.GetBackend "k").2.mapToBackend = icW.mapToBackend ∧
      ((icW.GetBackend "k").2.GetBackend "k").1 = (icW.GetBackend "k").1 :=
  C10_select_stable icW "k" (fun kv hkv => absurd hkv (List.not_mem_nil kv))

end InfluxProxy
